import Mathlib

/-!
Verification of the asynchronous autocomplete core of `codemirror-turbo`
(`src/autocomplete.ts`, both the line-local and the full-document variant).

JS strings are modelled as `List Char`; machine-level concerns (DOM, real
timers) are modelled by explicit state passing and event lists.  Every
definition is translated from the source; the debounce primitive
(`debouncePromise` in `src/utils.ts`, absent from the snapshot) is modelled
from the spec and marked as such.
-/

namespace CodemirrorTurbo

/-! ## JS string primitives -/

/-- The whitespace class used by JS `trim()` and `\s`, restricted to the
ASCII characters that occur in this code base. -/
def isJsSpace (c : Char) : Bool :=
  c = ' ' || c = '\t' || c = '\n' || c = '\r' || c = '\x0b' || c = '\x0c'

/-- JS `String.prototype.trim`: drop the leading and the trailing
whitespace run. -/
def jsTrim (s : List Char) : List Char :=
  List.rdropWhile isJsSpace (List.dropWhile isJsSpace s)

/-- The backquote character (avoids a literal backtick in the file). -/
def btick : Char := Char.ofNat 96

/-! ## Document addressing

A CodeMirror document is modelled as its flat text (`List Char`); positions
are absolute character offsets, as in `state.doc.lineAt(pos)`. -/

/-- `line.from` for the line containing `pos`: the offset just after the
last newline before `pos`. -/
def lineStartAt (doc : List Char) (pos : Nat) : Nat :=
  pos - ((doc.take pos).reverse.takeWhile (· ≠ '\n')).length

/-- `line.to` for the line containing `pos`: the offset of the next newline
(or the end of the document). -/
def lineEndAt (doc : List Char) (pos : Nat) : Nat :=
  pos + ((doc.drop pos).takeWhile (· ≠ '\n')).length

/-- `line.number` (1-based) for the line containing `pos`. -/
def lineNumberAt (doc : List Char) (pos : Nat) : Nat :=
  ((doc.take pos).filter (· = '\n')).length + 1

/-- `line.text` for the line containing `pos`. -/
def lineTextAt (doc : List Char) (pos : Nat) : List Char :=
  (doc.take (lineEndAt doc pos)).drop (lineStartAt doc pos)

/-! ## Suggestion State Store

`AutocompleteSuggestionState` is a `StateField` holding
`{ suggestion: string | null }`; it is updated per transaction from
`tr.docChanged` and an optional `AutocompleteSuggestionEffect` whose payload
is `string | null`. -/

/-- The `update` function of `AutocompleteSuggestionState`:
`if (!tr.docChanged && !effect) return value; if (effect) return
{ suggestion: effect.value }; return { suggestion: null }`. -/
def suggestionFieldUpdate (value : Option (List Char)) (docChanged : Bool)
    (effect : Option (Option (List Char))) : Option (List Char) :=
  if docChanged = false ∧ effect = none then value
  else
    match effect with
    | some v => v
    | none => none

/-- Editor state: document text, cursor (`state.selection.main.head`) and
the suggestion store field. -/
structure Editor where
  doc : List Char
  cursor : Nat
  suggestion : Option (List Char)
deriving DecidableEq, Repr

/-- A dispatched transaction: optional document change
`{from, to, insert}` and optional `AutocompleteSuggestionEffect` payload. -/
structure Transaction where
  changes : Option (Nat × Nat × List Char)
  effect : Option (Option (List Char))
deriving DecidableEq, Repr

/-- Apply a `{from, to, insert}` change to the document text. -/
def applyChanges (doc : List Char) : Option (Nat × Nat × List Char) → List Char
  | none => doc
  | some (f, t, ins) => doc.take f ++ ins ++ doc.drop t

/-- `view.dispatch`: apply the change to the document and run the
suggestion field's `update` (the cursor is left in place; no claim in this
development depends on cursor mapping). -/
def dispatch (e : Editor) (tr : Transaction) : Editor :=
  { doc := applyChanges e.doc tr.changes
    cursor := e.cursor
    suggestion := suggestionFieldUpdate e.suggestion tr.changes.isSome tr.effect }

/-- The clearing transaction
`{ effects: AutocompleteSuggestionEffect.of(null) }`. -/
def clearTr : Transaction := { changes := none, effect := some none }

/-- JS truthiness of the stored suggestion: `null` and the empty string are
falsy, so `if (!state.suggestion)` treats both as absent. -/
def isTruthy : Option (List Char) → Bool
  | none => false
  | some s => !s.isEmpty

/-! ## Commit/Reject engine (full-document variant, lines 390–445) -/

/-- `acceptSuggestion`: no-op returning `false` when the stored suggestion
is falsy; otherwise replace the span `[line.from, line.to)` of the current
line with the suggestion text in one transaction that also carries the
clearing effect.  The source's multiline and single-line branches build the
same transaction. -/
def acceptSuggestion (e : Editor) : Bool × Editor :=
  match e.suggestion with
  | none => (false, e)
  | some s =>
    if s.isEmpty then (false, e)
    else
      let f := lineStartAt e.doc e.cursor
      let t := lineEndAt e.doc e.cursor
      if '\n' ∈ s then
        (true, dispatch e { changes := some (f, t, s), effect := some none })
      else
        (true, dispatch e { changes := some (f, t, s), effect := some none })

/-- `rejectSuggestion`: no-op returning `false` when the stored suggestion
is falsy; otherwise dispatch only the clearing effect. -/
def rejectSuggestion (e : Editor) : Bool × Editor :=
  match e.suggestion with
  | none => (false, e)
  | some s => if s.isEmpty then (false, e) else (true, dispatch e clearTr)

/-- The accept key binding in `aiAutocomplete`: return `false` when the
stored suggestion is falsy; otherwise capture the suggestion text, run
`acceptSuggestion`, and invoke `onAcceptSuggestion` with the captured text
when the command succeeded.  The third component lists the notification
payloads fired. -/
def acceptKeyRun (e : Editor) : Bool × Editor × List (List Char) :=
  match e.suggestion with
  | none => (false, e, [])
  | some s =>
    if s.isEmpty then (false, e, [])
    else
      let r := acceptSuggestion e
      (r.1, r.2, if r.1 then [s] else [])

/-- The reject key binding in `aiAutocomplete`, analogous to
`acceptKeyRun` with `rejectSuggestion` and `onRejectSuggestion`. -/
def rejectKeyRun (e : Editor) : Bool × Editor × List (List Char) :=
  match e.suggestion with
  | none => (false, e, [])
  | some s =>
    if s.isEmpty then (false, e, [])
    else
      let r := rejectSuggestion e
      (r.1, r.2, if r.1 then [s] else [])

/-! ## Debounced fetch body

Both variants of `debouncedFetch` first test an empty-context guard; when
it trips they dispatch the clearing effect and return without calling the
`prompt` capability.  Otherwise they build the request payload from a
snapshot of the editor state. -/

/-- The request payload handed to `options.prompt` (the context fields the
guards and claims depend on). -/
structure RequestPayload where
  codeBefore : List Char
  codeAfter : List Char
deriving DecidableEq, Repr

/-- Split the document text into its lines (JS `split('\n')`). -/
def splitLines (s : List Char) : List (List Char) := s.splitOn '\n'

/-- Join lines with newlines (JS `join('\n')`). -/
def joinLines (ls : List (List Char)) : List Char := List.intercalate ['\n'] ls

/-- The line-local variant's context window: up to 200 lines immediately
before the current line, in document order (the `while` loop at lines
134–143). -/
def contextLines200 (doc : List Char) (pos : Nat) : List (List Char) :=
  let ls := (splitLines doc).take (lineNumberAt doc pos - 1)
  ls.drop (ls.length - 200)

/-- The start of the line-local `debouncedFetch` body (first variant,
lines 130–165): returns the transactions dispatched synchronously and the
payload passed to `prompt`, or `none` when the whitespace guard
`!prefix.trim()` trips. -/
def fetchStartLineLocal (doc : List Char) (pos : Nat) :
    List Transaction × Option RequestPayload :=
  let f := lineStartAt doc pos
  let pre := (doc.take pos).drop f
  let suf := (doc.take (lineEndAt doc pos)).drop pos
  if jsTrim pre = [] then ([clearTr], none)
  else ([], some ⟨joinLines (contextLines200 doc pos) ++ '\n' :: pre, suf⟩)

/-- The start of the full-document `debouncedFetch` body (second variant,
lines 476–508): the guard is `!currentFullLine.trim()`; the payload joins
all lines before and all lines after the current line. -/
def fetchStartFullDoc (doc : List Char) (pos : Nat) :
    List Transaction × Option RequestPayload :=
  let n := lineNumberAt doc pos
  let before := joinLines ((splitLines doc).take (n - 1))
  let after := joinLines ((splitLines doc).drop n)
  if jsTrim (lineTextAt doc pos) = [] then ([clearTr], none)
  else ([], some ⟨before, after⟩)

/-! ## Session currency and commit (lines 125–128, 463–474, 571–584) -/

/-- The commit decision at fetch resolution: the suggestion effect payload
dispatched, if any.  Mirrors
`if (!abortController.signal.aborted && requestId === currentRequestId)`,
the timestamp double-check, and
`if (cleanedSuggestion !== currentSuggestion)`; `storedSuggestion` is the
field value of the state snapshot the fetch closed over. -/
def commitDecision (abortedCur : Bool) (requestId currentId : Nat)
    (tsMatch : Bool) (storedSuggestion : Option (List Char))
    (cleaned : List Char) : Option (List Char) :=
  if abortedCur = false ∧ requestId = currentId then
    if tsMatch then
      if some cleaned ≠ storedSuggestion then some cleaned else none
    else none
  else none

/-- Apply a commit decision to an editor: dispatch the suggestion effect
when one was produced. -/
def commitApply (e : Editor) : Option (List Char) → Editor
  | none => e
  | some v => dispatch e { changes := none, effect := some (some v) }

/-- The rejection value of a JS promise: whether it is an `Error` instance
and its `name`. -/
structure JsRejection where
  isErrorInstance : Bool
  name : List Char
deriving DecidableEq, Repr

/-- The `catch` block of both fetch bodies:
`if (error instanceof Error && error.name !== "AbortError")
options.onError?.(error)`.  Returns the list of `onError` invocations. -/
def catchOnErrorCalls (err : JsRejection) : List JsRejection :=
  if err.isErrorInstance = true ∧ err.name ≠ ("AbortError").data then [err]
  else []

/-- The whole error path of the fetch: no transaction is dispatched, so the
editor is returned unchanged next to the `onError` invocations. -/
def fetchCatchStep (e : Editor) (err : JsRejection) :
    Editor × List JsRejection :=
  (e, catchOnErrorCalls err)

/-- The module-level session state of `createAutocompletePlugin`: the
monotonic `currentRequestId` counter, the set of session ids whose
`AbortController` has been aborted (session `k` creates controller `k`;
`abortController` always refers to the latest one), and the Suggestion
State Store slot. -/
structure SessionState where
  currentRequestId : Nat
  abortedIds : List Nat
  store : Option (List Char)
deriving DecidableEq, Repr

/-- Events of the fetch lifecycle: a debounced fetch body starting
(`issue`), session `id`'s `prompt` promise resolving with the normalized
text `cleaned` against the store snapshot `snap` it closed over
(`resolve`), and any dispatch of the clearing effect (`clearStore`). -/
inductive SEvent where
  | issue : SEvent
  | resolve : Nat → Option (List Char) → List Char → SEvent
  | clearStore : SEvent
deriving DecidableEq, Repr

/-- One step of the session machine.  `issue` aborts the previous
controller and increments the request id (lines 463–472); `resolve`
performs the currency-gated commit (lines 571–584; the timestamp check is
passed as satisfied — with a single plugin instance it can only restrict
the commit further), and `clearStore` clears the slot. -/
def sessionStep (s : SessionState) : SEvent → SessionState
  | .issue =>
      { currentRequestId := s.currentRequestId + 1
        abortedIds := s.currentRequestId :: s.abortedIds
        store := s.store }
  | .resolve id snap cleaned =>
      match commitDecision (s.abortedIds.contains s.currentRequestId) id
          s.currentRequestId true snap cleaned with
      | some v => { s with store := some v }
      | none => s
  | .clearStore => { s with store := none }

/-- Run the session machine over a list of events. -/
def runSession (s : SessionState) (es : List SEvent) : SessionState :=
  es.foldl sessionStep s

/-! ## Theorems: C3 and C7 -/

/-- C3. Accept with a suggestion present: the accept key run replaces the
full current line span `[line.from, line.to)` with the suggestion text in a
single dispatched transaction (also when the text is multi-line), leaves
the suggestion store empty, and fires the accept notification exactly once
with the pre-clear suggestion text. -/
theorem accept_replaces_line (e : Editor) (s : List Char)
    (hs : e.suggestion = some s) (hne : s ≠ []) :
    acceptKeyRun e =
      (true,
       { doc := e.doc.take (lineStartAt e.doc e.cursor) ++ s ++
                  e.doc.drop (lineEndAt e.doc e.cursor)
         cursor := e.cursor
         suggestion := none },
       [s]) := by
  have hempty : s.isEmpty = false := by
    cases s with
    | nil => exact absurd rfl hne
    | cons a l => rfl
  unfold acceptKeyRun acceptSuggestion
  rw [hs]
  simp only [hempty]
  by_cases hmem : '\n' ∈ s <;>
    simp [hmem, dispatch, applyChanges, suggestionFieldUpdate, clearTr]

/-- Witness for C3: the spec's round-trip example — suggestion
`"return x + 1"` offered on the line `"return x"` replaces the whole line
and empties the store. -/
theorem accept_replaces_line_witness :
    acceptKeyRun ⟨("return x").data, 8, some ("return x + 1").data⟩ =
      (true, ⟨("return x + 1").data, 8, none⟩, [("return x + 1").data]) := by
  have h := accept_replaces_line ⟨("return x").data, 8, some ("return x + 1").data⟩
    (("return x + 1").data) rfl (by decide)
  exact h.trans (by decide)

/-- C7. Idempotent accept/reject: with no (truthy) suggestion present both
commands return `false`, change neither document nor store, and fire no
notification; and after a successful accept or reject has cleared the
store, the second invocation is exactly such a no-op. -/
theorem accept_reject_idempotent (e e' : Editor) (s : List Char)
    (h : isTruthy e.suggestion = false)
    (h' : e'.suggestion = some s) (hs : s ≠ []) :
    acceptKeyRun e = (false, e, []) ∧
    rejectKeyRun e = (false, e, []) ∧
    acceptKeyRun (acceptKeyRun e').2.1 = (false, (acceptKeyRun e').2.1, []) ∧
    rejectKeyRun (rejectKeyRun e').2.1 = (false, (rejectKeyRun e').2.1, []) := by
  have hempty : s.isEmpty = false := by
    cases s with
    | nil => exact absurd rfl hs
    | cons a l => rfl
  have hnoop : ∀ f : Editor, f.suggestion = none →
      acceptKeyRun f = (false, f, []) ∧ rejectKeyRun f = (false, f, []) := by
    intro f hf
    unfold acceptKeyRun rejectKeyRun
    rw [hf]
    exact ⟨rfl, rfl⟩
  have hfalsy : acceptKeyRun e = (false, e, []) ∧ rejectKeyRun e = (false, e, []) := by
    unfold acceptKeyRun rejectKeyRun
    cases he : e.suggestion with
    | none => exact ⟨rfl, rfl⟩
    | some t =>
      have : t.isEmpty = true := by
        have := h
        rw [he] at this
        simpa [isTruthy] using this
      simp [this]
  have hacc : (acceptKeyRun e').2.1.suggestion = none := by
    unfold acceptKeyRun acceptSuggestion
    rw [h']
    simp only [hempty]
    by_cases hmem : '\n' ∈ s <;>
      simp [hmem, dispatch, suggestionFieldUpdate, clearTr]
  have hrej : (rejectKeyRun e').2.1.suggestion = none := by
    unfold rejectKeyRun rejectSuggestion
    rw [h']
    simp [hempty, dispatch, suggestionFieldUpdate, clearTr]
  exact ⟨hfalsy.1, hfalsy.2, (hnoop _ hacc).1, (hnoop _ hrej).2⟩

/-- Witness for C7: a concrete editor with an empty store and one with a
suggestion; the double invocation is a no-op with no notifications. -/
theorem accept_reject_idempotent_witness :
    acceptKeyRun ⟨("ab").data, 1, none⟩ = (false, ⟨("ab").data, 1, none⟩, []) ∧
    rejectKeyRun ⟨("ab").data, 1, none⟩ = (false, ⟨("ab").data, 1, none⟩, []) ∧
    (let e' : Editor := ⟨("ab").data, 1, some ("xy").data⟩
     acceptKeyRun (acceptKeyRun e').2.1 = (false, (acceptKeyRun e').2.1, []) ∧
     rejectKeyRun (rejectKeyRun e').2.1 = (false, (rejectKeyRun e').2.1, [])) := by
  have h := accept_reject_idempotent ⟨("ab").data, 1, none⟩
    ⟨("ab").data, 1, some ("xy").data⟩ (("xy").data) (by decide) rfl (by decide)
  exact ⟨h.1, h.2.1, h.2.2.1, h.2.2.2⟩

/-! ## Theorems: C1, C4, C10, C5, C8 -/

/-- `currentRequestId` never decreases along a run of the session
machine. -/
theorem currentRequestId_le_runSession (es : List SEvent) (s : SessionState) :
    s.currentRequestId ≤ (runSession s es).currentRequestId := by
  induction es generalizing s with
  | nil => exact Nat.le_refl _
  | cons e es ih =>
    have h1 : s.currentRequestId ≤ (sessionStep s e).currentRequestId := by
      cases e with
      | issue => exact Nat.le_succ _
      | resolve id snap cleaned =>
        simp only [sessionStep]
        cases commitDecision (s.abortedIds.contains s.currentRequestId) id
            s.currentRequestId true snap cleaned with
        | none => exact Nat.le_refl _
        | some v => exact Nat.le_refl _
      | clearStore => exact Nat.le_refl _
    exact Nat.le_trans h1 (ih (sessionStep s e))

/-- C1. No stale application: if session `k` was issued no later than state
`s0` (so `k ≤ s0.currentRequestId`), then after a further fetch has been
issued — superseding it — and any further events have run, session `k`'s
resolution never reaches the Suggestion State Store, even though it
resolves after the later session's activity. -/
theorem no_stale_application (s0 : SessionState) (es : List SEvent) (k : Nat)
    (snap : Option (List Char)) (cleaned : List Char)
    (hk : k ≤ s0.currentRequestId) :
    (sessionStep (runSession (sessionStep s0 .issue) es)
        (.resolve k snap cleaned)).store
      = (runSession (sessionStep s0 .issue) es).store := by
  have h1 : s0.currentRequestId + 1 ≤
      (runSession (sessionStep s0 .issue) es).currentRequestId := by
    have h := currentRequestId_le_runSession es (sessionStep s0 .issue)
    simpa [sessionStep] using h
  have hne : k ≠ (runSession (sessionStep s0 .issue) es).currentRequestId := by
    omega
  have key : ∀ s1 : SessionState, k ≠ s1.currentRequestId →
      (sessionStep s1 (.resolve k snap cleaned)).store = s1.store := by
    intro s1 hne1
    have hd : commitDecision (s1.abortedIds.contains s1.currentRequestId) k
        s1.currentRequestId true snap cleaned = none := by
      unfold commitDecision
      rw [if_neg]
      rintro ⟨-, h⟩
      exact hne1 h
    simp only [sessionStep, hd]
  exact key _ hne

/-- Witness for C1: session 1 was superseded by session 2; its late
resolution with text `"x"` leaves the store empty. -/
theorem no_stale_application_witness :
    (sessionStep (runSession (sessionStep ⟨1, [0], none⟩ .issue) [])
        (.resolve 1 none (("x").data))).store = none := by
  have h := no_stale_application ⟨1, [0], none⟩ [] 1 none (("x").data)
    (by decide)
  exact h.trans (by decide)

/-- C4. Whitespace-only guard: when the text before the cursor on the
current line (line-local variant), respectively the whole current line
(full-document variant), trims to the empty string, the fetch body issues
no request — `prompt` is not called. -/
theorem whitespace_only_guard (doc : List Char) (pos : Nat) :
    (jsTrim ((doc.take pos).drop (lineStartAt doc pos)) = [] →
      (fetchStartLineLocal doc pos).2 = none) ∧
    (jsTrim (lineTextAt doc pos) = [] →
      (fetchStartFullDoc doc pos).2 = none) := by
  constructor <;> intro h <;>
    simp [fetchStartLineLocal, fetchStartFullDoc, h]

/-- Witness for C4: the spec's example — document `"   "` with the cursor
at the end of the line issues no request in either variant. -/
theorem whitespace_only_guard_witness :
    (fetchStartLineLocal (("   ").data) 3).2 = none ∧
    (fetchStartFullDoc (("   ").data) 3).2 = none :=
  ⟨(whitespace_only_guard (("   ").data) 3).1 (by decide),
   (whitespace_only_guard (("   ").data) 3).2 (by decide)⟩

/-- C10. When the empty-context guard trips, the fetch body does not just
skip the request: it dispatches the null-suggestion effect, and applying
that dispatch empties the suggestion store of any editor. -/
theorem empty_guard_clears (doc : List Char) (pos : Nat) (e : Editor) :
    (jsTrim ((doc.take pos).drop (lineStartAt doc pos)) = [] →
      (fetchStartLineLocal doc pos).1 = [clearTr] ∧
      ((fetchStartLineLocal doc pos).1.foldl dispatch e).suggestion = none) ∧
    (jsTrim (lineTextAt doc pos) = [] →
      (fetchStartFullDoc doc pos).1 = [clearTr] ∧
      ((fetchStartFullDoc doc pos).1.foldl dispatch e).suggestion = none) := by
  constructor <;> intro h <;>
    simp [fetchStartLineLocal, fetchStartFullDoc, h, clearTr, dispatch,
      suggestionFieldUpdate]

/-- Witness for C10: on a whitespace-only context, the tripped guard clears
a displayed suggestion. -/
theorem empty_guard_clears_witness :
    (fetchStartLineLocal ((" \t").data) 2).1 = [clearTr] ∧
    ((fetchStartLineLocal ((" \t").data) 2).1.foldl dispatch
      ⟨(("a").data), 0, some (("s").data)⟩).suggestion = none ∧
    (fetchStartFullDoc ((" \t").data) 2).1 = [clearTr] ∧
    ((fetchStartFullDoc ((" \t").data) 2).1.foldl dispatch
      ⟨(("a").data), 0, some (("s").data)⟩).suggestion = none := by
  have h := empty_guard_clears ((" \t").data) 2 ⟨(("a").data), 0, some (("s").data)⟩
  exact ⟨(h.1 (by decide)).1, (h.1 (by decide)).2,
    (h.2 (by decide)).1, (h.2 (by decide)).2⟩

/-- Counterexample for C5: a `prompt` rejection whose value is not an
`Error` instance (e.g. a thrown string) is not a cancellation, yet
`onError` is not invoked — the claim's "for every other rejection of
prompt(), onError is invoked" fails at this input. -/
theorem error_routing_counterexample :
    (⟨false, (("boom").data)⟩ : JsRejection).name ≠ ("AbortError").data ∧
    catchOnErrorCalls ⟨false, (("boom").data)⟩ = [] ∧
    catchOnErrorCalls ⟨false, (("boom").data)⟩ ≠ [⟨false, (("boom").data)⟩] := by
  decide

/-- C5 (amended). Error routing: the catch block never touches the pending
suggestion state; a rejection named `AbortError` is swallowed; a rejection
whose value is not an `Error` instance is also swallowed; and every
rejection that is an `Error` instance not named `AbortError` invokes
`onError` exactly once with the error. -/
theorem error_routing_amended (e : Editor) (err : JsRejection) :
    (fetchCatchStep e err).1 = e ∧
    (err.name = ("AbortError").data → catchOnErrorCalls err = []) ∧
    (err.isErrorInstance = false → catchOnErrorCalls err = []) ∧
    (err.isErrorInstance = true → err.name ≠ ("AbortError").data →
      catchOnErrorCalls err = [err]) := by
  refine ⟨rfl, ?_, ?_, ?_⟩
  · intro h
    simp [catchOnErrorCalls, h]
  · intro h
    simp [catchOnErrorCalls, h]
  · intro h1 h2
    simp [catchOnErrorCalls, h1, h2]

/-- Witness for C5: a genuine provider error (an `Error` named
`"TypeError"`) is reported to `onError` and the editor is untouched. -/
theorem error_routing_amended_witness :
    (fetchCatchStep ⟨[], 0, none⟩ ⟨true, (("TypeError").data)⟩).1 =
      (⟨[], 0, none⟩ : Editor) ∧
    catchOnErrorCalls ⟨true, (("TypeError").data)⟩ =
      [⟨true, (("TypeError").data)⟩] :=
  ⟨(error_routing_amended ⟨[], 0, none⟩ ⟨true, (("TypeError").data)⟩).1,
   (error_routing_amended ⟨[], 0, none⟩ ⟨true, (("TypeError").data)⟩).2.2.2
     rfl (by decide)⟩

/-- C8. Redundancy guard: when the normalized response is byte-identical
to the suggestion recorded in the Suggestion State Store snapshot, the
commit dispatches nothing, and applying the (absent) dispatch leaves the
editor — hence any downstream accept/reject activity — unchanged. -/
theorem redundancy_guard (a : Bool) (rid cid : Nat) (ts : Bool)
    (cur : Option (List Char)) (cl : List Char) (e : Editor)
    (h : cur = some cl) :
    commitDecision a rid cid ts cur cl = none ∧
    commitApply e (commitDecision a rid cid ts cur cl) = e := by
  have hd : commitDecision a rid cid ts cur cl = none := by
    subst h
    simp [commitDecision]
  exact ⟨hd, by rw [hd]; rfl⟩

/-- Witness for C8: a current, unaborted session whose normalized text
equals the displayed suggestion dispatches nothing. -/
theorem redundancy_guard_witness :
    commitDecision false 2 2 true (some (("dup").data)) (("dup").data) =
      none ∧
    commitApply ⟨(("dup").data), 0, some (("dup").data)⟩
      (commitDecision false 2 2 true (some (("dup").data)) (("dup").data)) =
      ⟨(("dup").data), 0, some (("dup").data)⟩ :=
  redundancy_guard false 2 2 true (some (("dup").data)) (("dup").data)
    ⟨(("dup").data), 0, some (("dup").data)⟩ rfl

/-! ## Plugin `update` clearing (lines 595–630) -/

/-- Whether the plugin's `update` method schedules the clearing dispatch:
it runs under `update.docChanged || update.selectionSet` and fires when the
cursor's line number differs between the start and the new state. -/
def pluginClearsOnLineChange (oldDoc : List Char) (oldPos : Nat)
    (newDoc : List Char) (newPos : Nat)
    (docChanged selectionSet : Bool) : Bool :=
  (docChanged || selectionSet) &&
    (lineNumberAt oldDoc oldPos != lineNumberAt newDoc newPos)

/-- The store after the plugin's scheduled `setTimeout` dispatch has run:
when a clear was scheduled, the clearing transaction is applied. -/
def pluginUpdateStore (e : Editor) (oldDoc : List Char) (oldPos : Nat)
    (newDoc : List Char) (newPos : Nat)
    (docChanged selectionSet : Bool) : Editor :=
  if pluginClearsOnLineChange oldDoc oldPos newDoc newPos docChanged
      selectionSet then
    dispatch e clearTr
  else e

/-- C6. Suggestion clearing invariant: a transaction that changes the
document and carries no suggestion effect (i.e. any edit not caused by
accept/reject, which always attach the effect) drives the field to `null`;
and when the cursor's line number changes in an update, the scheduled
clearing dispatch empties the store. -/
theorem suggestion_clearing_invariant (v : Option (List Char)) (e : Editor)
    (oldDoc newDoc : List Char) (oldPos newPos : Nat) (dc ss : Bool)
    (hline : lineNumberAt oldDoc oldPos ≠ lineNumberAt newDoc newPos)
    (hev : dc = true ∨ ss = true) :
    suggestionFieldUpdate v true none = none ∧
    (pluginUpdateStore e oldDoc oldPos newDoc newPos dc ss).suggestion =
      none := by
  constructor
  · simp [suggestionFieldUpdate]
  · have hb : pluginClearsOnLineChange oldDoc oldPos newDoc newPos dc ss =
        true := by
      rcases hev with h | h <;>
        simp [pluginClearsOnLineChange, hline, h]
    simp [pluginUpdateStore, hb, dispatch, clearTr, suggestionFieldUpdate]

/-- Witness for C6: moving the cursor from line 1 to line 2 of `"a\nb"`
clears a displayed suggestion, and a plain edit transaction clears the
field. -/
theorem suggestion_clearing_invariant_witness :
    suggestionFieldUpdate (some (("s").data)) true none = none ∧
    (pluginUpdateStore ⟨("a\nb").data, 2, some (("s").data)⟩ (("a\nb").data)
      0 (("a\nb").data) 2 false true).suggestion = none :=
  suggestion_clearing_invariant (some (("s").data))
    ⟨("a\nb").data, 2, some (("s").data)⟩ (("a\nb").data) (("a\nb").data)
    0 2 false true (by decide) (Or.inr rfl)

/-! ## Debounced invoker (spec-modelled) -/

/-- Modelled from the spec: `debouncePromise(operation, delayMs)` lives in
`src/utils.ts`, which is missing from this snapshot (only its import and
call sites are present).  Per §4.1 each call restarts a `delayMs` timer and
only the last call within any window invokes the operation.  A burst is a
time-ordered list of (call time, argument); the result lists the
(fire time, argument) of the scheduled invocations that actually execute —
a pending invocation is superseded when the next call arrives strictly
before its fire time. -/
def debounceFires {α : Type} (d : Nat) : List (Nat × α) → List (Nat × α)
  | [] => []
  | [(t, a)] => [(t + d, a)]
  | (t, a) :: (t2, a2) :: rest =>
      if t2 < t + d then debounceFires d ((t2, a2) :: rest)
      else (t + d, a) :: debounceFires d ((t2, a2) :: rest)

/-- Phase of a task at a given millisecond: the triggering event's own
handling. -/
def eventPhase : Nat := 0

/-- Phase of a task at a given millisecond: timer/microtask callbacks, which
run after the event handling of the same millisecond completes. -/
def timerPhase : Nat := 1

/-- Strict scheduling order on (time, phase) pairs. -/
def taskBefore (a b : Nat × Nat) : Prop :=
  a.1 < b.1 ∨ (a.1 = b.1 ∧ a.2 < b.2)

/-- C2 (spec-modelled). Debounce latest-wins: for a burst whose calls each
arrive strictly within `d` of the previous one, exactly one invocation
executes, at time `tN + d` (no earlier than `d` after the last trigger),
with the argument of the last call; and even for `d = 0` the execution is
scheduled strictly after the last triggering event's own task. -/
theorem debounce_latest_wins {α : Type} (d : Nat) (calls : List (Nat × α))
    (tN : Nat) (aN : α)
    (hchain : List.Chain' (fun p q => q.1 < p.1 + d) (calls ++ [(tN, aN)])) :
    debounceFires d (calls ++ [(tN, aN)]) = [(tN + d, aN)] ∧
    taskBefore (tN, eventPhase) (tN + d, timerPhase) := by
  constructor
  · induction calls with
    | nil => rfl
    | cons hd tl ih =>
      obtain ⟨t, a⟩ := hd
      cases tl with
      | nil =>
        have h2 : tN < t + d := by simpa using hchain
        simp [debounceFires, h2]
      | cons hd2 tl2 =>
        obtain ⟨t2, a2⟩ := hd2
        have hc := List.chain'_cons.mp hchain
        have h2 : t2 < t + d := hc.1
        have ih2 := ih hc.2
        simpa [debounceFires, h2] using ih2
  · simp only [taskBefore, eventPhase, timerPhase]
    omega

/-- Witness for C2: three triggers at t = 0, 1, 2 ms with `d = 500` yield
exactly one execution, at t = 502, with the last trigger's argument. -/
theorem debounce_latest_wins_witness :
    debounceFires 500 [((0 : Nat), (1 : Nat)), (1, 2), (2, 3)] =
      [(502, 3)] ∧
    taskBefore (2, eventPhase) (502, timerPhase) :=
  debounce_latest_wins 500 [((0 : Nat), (1 : Nat)), (1, 2)] 2 3
    (List.chain'_cons.mpr ⟨by norm_num,
      List.chain'_cons.mpr ⟨by norm_num, List.chain'_singleton _⟩⟩)

/-! ## Response normalizer (second variant, lines 546–569)

Each `.replace(...)`/`.trim()` call of the cleanup chain is translated to a
step function; `cleanSuggestion` chains them as the source does. -/

/-- `pat` occurs in `s` at index `q`. -/
def matchesAt (pat s : List Char) (q : Nat) : Prop :=
  (s.drop q).take pat.length = pat

instance (pat s : List Char) (q : Nat) : Decidable (matchesAt pat s q) :=
  inferInstanceAs (Decidable ((s.drop q).take pat.length = pat))

/-- Index of the first occurrence of `pat` in `s` (JS `indexOf`, and the
position found by a lazy regex scan). -/
def findSub (pat : List Char) : List Char → Option Nat
  | [] => if ([] : List Char).take pat.length = pat then some 0 else none
  | c :: tl =>
      if (c :: tl).take pat.length = pat then some 0
      else (findSub pat tl).map (· + 1)

/-- JS `String.prototype.includes`. -/
def containsSub (pat s : List Char) : Bool := (findSub pat s).isSome

/-- The fence marker `"` + backquotes + `"` used by the regexes. -/
def fenceMark : List Char := ("```").data

/-- `replace(/^(fence)[\s\S]*?\n/, '')`: when the text starts with a fence
and some newline follows it, drop everything through the first newline. -/
def stripLeadFence (s : List Char) : List Char :=
  if s.take 3 = fenceMark ∧ '\n' ∈ s.drop 3 then
    ((s.drop 3).dropWhile (· ≠ '\n')).drop 1
  else s

/-- `replace(/\n(fence)$/, '')`: drop a trailing newline-plus-fence. -/
def stripTrailFence (s : List Char) : List Char :=
  if s.reverse.take 4 = ("```\n").data then s.take (s.length - 4) else s

/-- The opening wrapper tag. -/
def openTag : List Char := ("<code>").data

/-- The closing wrapper tag. -/
def closeTag : List Char := ("</code>").data

/-- The replace `/[\s\S]*?<code>([\s\S]*?)<\/code>[\s\S]*/g` with `'$1'`:
the content between the first opening tag and the first closing tag after
it; when no such ordered pair exists the regex does not match and the text
is unchanged. -/
def tagReplace (s : List Char) : List Char :=
  match findSub openTag s with
  | none => s
  | some i =>
      match findSub closeTag (s.drop (i + openTag.length)) with
      | none => s
      | some j => (s.drop (i + openTag.length)).take j

/-- The tag-extraction step, guarded by
`includes('<code>') && includes('</code>')` and followed by `trim()`. -/
def extractCodeTags (s : List Char) : List Char :=
  if containsSub openTag s ∧ containsSub closeTag s then jsTrim (tagReplace s)
  else s

/-- `currentFullLine.match(/^(\s*)/)?.[1] || ''`: the indentation of the
line being replaced (a single line, so no newline occurs in it). -/
def leadingWS (line : List Char) : List Char := line.takeWhile isJsSpace

/-- The indentation step: when the text is multi-line, prepend `ind` to
every line after the first. -/
def reindentStep (ind s : List Char) : List Char :=
  if '\n' ∈ s then
    match splitLines s with
    | [] => s
    | l0 :: rest => joinLines (l0 :: rest.map (fun ln => ind ++ ln))
  else s

/-- The full cleanup chain of the second variant (lines 546–569), written
as in the source: fence stripping and trim, guarded tag extraction with
its trailing trim, then the indentation fix-up. -/
def cleanSuggestion (currentFullLine raw : List Char) : List Char :=
  let c1 := jsTrim (stripTrailFence (stripLeadFence raw))
  let c2 :=
    if containsSub openTag c1 ∧ containsSub closeTag c1 then
      jsTrim (tagReplace c1)
    else c1
  if '\n' ∈ c2 then
    match splitLines c2 with
    | [] => c2
    | l0 :: rest =>
        joinLines (l0 :: rest.map (fun ln => leadingWS currentFullLine ++ ln))
  else c2

/-! ### Occurrence lemmas for `findSub` -/

theorem findSub_some_matches (pat : List Char) :
    ∀ (s : List Char) (j : Nat), findSub pat s = some j → matchesAt pat s j := by
  intro s
  induction s with
  | nil =>
    intro j h
    unfold findSub at h
    split at h
    · next h0 => cases h; exact h0
    · cases h
  | cons c tl ih =>
    intro j h
    unfold findSub at h
    split at h
    · next h0 => cases h; exact h0
    · next h0 =>
      rcases Option.map_eq_some'.mp h with ⟨j', hj', rfl⟩
      exact ih j' hj'

theorem findSub_some_min (pat : List Char) :
    ∀ (s : List Char) (j : Nat), findSub pat s = some j →
      ∀ q, q < j → ¬ matchesAt pat s q := by
  intro s
  induction s with
  | nil =>
    intro j h q hq
    unfold findSub at h
    split at h
    · cases h; omega
    · cases h
  | cons c tl ih =>
    intro j h q hq
    unfold findSub at h
    split at h
    · cases h; omega
    · next h0 =>
      rcases Option.map_eq_some'.mp h with ⟨j', hj', rfl⟩
      cases q with
      | zero => exact fun hm => h0 hm
      | succ q' => exact ih j' hj' q' (by omega)

theorem findSub_none_not_matches (pat : List Char) :
    ∀ (s : List Char), findSub pat s = none → ∀ q, ¬ matchesAt pat s q := by
  intro s
  induction s with
  | nil =>
    intro h q hm
    unfold findSub at h
    split at h
    · cases h
    · next h0 =>
      unfold matchesAt at hm
      rw [List.drop_nil] at hm
      exact h0 hm
  | cons c tl ih =>
    intro h q hm
    unfold findSub at h
    split at h
    · cases h
    · next h0 =>
      have htl : findSub pat tl = none := Option.map_eq_none'.mp h
      cases q with
      | zero => exact h0 hm
      | succ q' => exact ih htl q' hm

theorem matchesAt_of_take (pat l : List Char) (m q : Nat)
    (h : matchesAt pat (l.take m) q) : matchesAt pat l q := by
  unfold matchesAt at h ⊢
  rw [List.drop_take, List.take_take] at h
  rcases Nat.le_total pat.length (m - q) with hle | hle
  · rwa [Nat.min_eq_left hle] at h
  · rw [Nat.min_eq_right hle] at h
    have hlen : pat.length ≤ m - q := by
      have hl := congrArg List.length h
      rw [List.length_take] at hl
      omega
    have heq : pat.length = m - q := Nat.le_antisymm hlen hle
    rwa [← heq] at h

theorem matchesAt_of_drop (pat l : List Char) (k q : Nat)
    (h : matchesAt pat (l.drop k) q) : matchesAt pat l (k + q) := by
  unfold matchesAt at h ⊢
  rwa [List.drop_drop] at h

theorem matchesAt_to_drop (pat l : List Char) (k r : Nat)
    (hkr : k ≤ r) (h : matchesAt pat l r) : matchesAt pat (l.drop k) (r - k) := by
  unfold matchesAt at h ⊢
  rw [List.drop_drop, Nat.add_sub_cancel' hkr]
  exact h

theorem matchesAt_lt_length (pat l : List Char) (q : Nat) (hp : pat ≠ [])
    (h : matchesAt pat l q) : q < l.length := by
  by_contra hc
  push_neg at hc
  unfold matchesAt at h
  rw [List.drop_eq_nil_of_le hc] at h
  exact hp (h.symm.trans (List.take_nil))

/-! ### Trim structure and idempotence -/

/-- `jsTrim` keeps a contiguous region of its input. -/
theorem jsTrim_eq_drop_take (l : List Char) :
    ∃ k m, jsTrim l = (l.drop k).take m := by
  refine ⟨l.length - (List.dropWhile isJsSpace l).length, (jsTrim l).length, ?_⟩
  have h1 : List.dropWhile isJsSpace l =
      l.drop (l.length - (List.dropWhile isJsSpace l).length) :=
    List.suffix_iff_eq_drop.mp (List.dropWhile_suffix isJsSpace)
  have h2 : jsTrim l =
      (List.dropWhile isJsSpace l).take (jsTrim l).length :=
    List.prefix_iff_eq_take.mp (List.rdropWhile_prefix ..)
  rw [← h1]
  exact h2

theorem jsTrim_idempotent (l : List Char) : jsTrim (jsTrim l) = jsTrim l := by
  unfold jsTrim
  have hidem : List.dropWhile isJsSpace (List.dropWhile isJsSpace l) =
      List.dropWhile isJsSpace l := List.dropWhile_idempotent isJsSpace l
  have hdw : List.dropWhile isJsSpace
      (List.rdropWhile isJsSpace (List.dropWhile isJsSpace l)) =
      List.rdropWhile isJsSpace (List.dropWhile isJsSpace l) := by
    cases hB : List.rdropWhile isJsSpace (List.dropWhile isJsSpace l) with
    | nil => rfl
    | cons b bs =>
      have hpre : (b :: bs) <+: List.dropWhile isJsSpace l :=
        hB ▸ List.rdropWhile_prefix ..
      obtain ⟨rest, hrest⟩ := hpre
      have hb : isJsSpace b = false := by
        by_contra hcon
        have hb' : isJsSpace b = true := by
          cases hp : isJsSpace b with
          | true => rfl
          | false => exact absurd hp hcon
        rw [← hrest, List.cons_append, List.dropWhile_cons, hb'] at hidem
        have hidem' : List.dropWhile isJsSpace (bs ++ rest) =
            b :: (bs ++ rest) := by simpa using hidem
        have hlen := congrArg List.length hidem'
        have hle :=
          (List.dropWhile_suffix (l := bs ++ rest) isJsSpace).length_le
        simp only [List.length_cons] at hlen
        omega
      rw [List.dropWhile_cons, hb]
      simp
  rw [hdw, List.rdropWhile_idempotent]

/-! ### Extraction-step idempotence -/

/-- Equation for `tagReplace` when no closing tag follows the first
opening tag. -/
theorem tagReplace_no_close (s : List Char) (i : Nat)
    (hi : findSub openTag s = some i)
    (hj : findSub closeTag (s.drop (i + openTag.length)) = none) :
    tagReplace s = s := by
  unfold tagReplace
  rw [hi]
  show (match findSub closeTag (s.drop (i + openTag.length)) with
        | none => s
        | some j => (s.drop (i + openTag.length)).take j) = s
  rw [hj]

/-- Equation for `tagReplace` when a closing tag follows the first opening
tag. -/
theorem tagReplace_close (s : List Char) (i j : Nat)
    (hi : findSub openTag s = some i)
    (hj : findSub closeTag (s.drop (i + openTag.length)) = some j) :
    tagReplace s = (s.drop (i + openTag.length)).take j := by
  unfold tagReplace
  rw [hi]
  show (match findSub closeTag (s.drop (i + openTag.length)) with
        | none => s
        | some j => (s.drop (i + openTag.length)).take j) =
      (s.drop (i + openTag.length)).take j
  rw [hj]

/-- A string with no closing tag is left unchanged by the extraction
step. -/
theorem extractCodeTags_of_no_close (s : List Char)
    (hc : containsSub closeTag s = false) : extractCodeTags s = s := by
  unfold extractCodeTags
  rw [if_neg]
  rintro ⟨-, h2⟩
  rw [hc] at h2
  cases h2

/-- The extracted segment — everything between the first opening tag and
the first closing tag after it, trimmed — contains no closing tag. -/
theorem no_close_in_extract (s : List Char) (i j : Nat)
    (hj : findSub closeTag (s.drop (i + openTag.length)) = some j) :
    containsSub closeTag (jsTrim ((s.drop (i + openTag.length)).take j)) =
      false := by
  by_contra hcon
  have hsome : ∃ q,
      findSub closeTag (jsTrim ((s.drop (i + openTag.length)).take j)) =
        some q := by
    apply Option.isSome_iff_exists.mp
    cases hv : containsSub closeTag
        (jsTrim ((s.drop (i + openTag.length)).take j)) with
    | true => exact hv
    | false => exact absurd hv hcon
  obtain ⟨q, hq⟩ := hsome
  have hm := findSub_some_matches _ _ _ hq
  obtain ⟨k, m, he⟩ := jsTrim_eq_drop_take ((s.drop (i + openTag.length)).take j)
  rw [he] at hm
  have hm2 : matchesAt closeTag ((s.drop (i + openTag.length)).take j) (k + q) :=
    matchesAt_of_drop _ _ _ _ (matchesAt_of_take _ _ _ _ hm)
  have hlt : k + q < ((s.drop (i + openTag.length)).take j).length :=
    matchesAt_lt_length _ _ _ (by decide) hm2
  have hltj : k + q < j := by
    rw [List.length_take] at hlt
    omega
  exact findSub_some_min _ _ _ hj _ hltj (matchesAt_of_take _ _ _ _ hm2)

/-- When the first opening tag of `s` has no closing tag after it, the same
holds inside `jsTrim s`, so the extraction step fixes `jsTrim s`. -/
theorem extractCodeTags_trim_no_pair (s : List Char) (i : Nat)
    (hi : findSub openTag s = some i)
    (hj : findSub closeTag (s.drop (i + openTag.length)) = none) :
    extractCodeTags (jsTrim s) = jsTrim s := by
  by_cases hg : (containsSub openTag (jsTrim s) = true) ∧
      (containsSub closeTag (jsTrim s) = true)
  · obtain ⟨i', hi'⟩ := Option.isSome_iff_exists.mp hg.1
    have htr : tagReplace (jsTrim s) = jsTrim s := by
      cases hj' : findSub closeTag ((jsTrim s).drop (i' + openTag.length)) with
      | none => exact tagReplace_no_close _ _ hi' hj'
      | some j' =>
        exfalso
        obtain ⟨k, m, he⟩ := jsTrim_eq_drop_take s
        have hmo : matchesAt openTag (jsTrim s) i' :=
          findSub_some_matches _ _ _ hi'
        have hmo2 : matchesAt openTag s (k + i') := by
          rw [he] at hmo
          exact matchesAt_of_drop _ _ _ _ (matchesAt_of_take _ _ _ _ hmo)
        have hile : i ≤ k + i' := by
          by_contra hlt
          push_neg at hlt
          exact findSub_some_min _ _ _ hi _ hlt hmo2
        have hmc : matchesAt closeTag ((jsTrim s).drop (i' + openTag.length))
            j' := findSub_some_matches _ _ _ hj'
        have hmc2 : matchesAt closeTag (jsTrim s) (i' + openTag.length + j') :=
          matchesAt_of_drop _ _ _ _ hmc
        have hmc3 : matchesAt closeTag s (k + (i' + openTag.length + j')) := by
          rw [he] at hmc2
          exact matchesAt_of_drop _ _ _ _ (matchesAt_of_take _ _ _ _ hmc2)
        have hmc4 : matchesAt closeTag (s.drop (i + openTag.length))
            (k + (i' + openTag.length + j') - (i + openTag.length)) :=
          matchesAt_to_drop _ _ _ _ (by omega) hmc3
        exact findSub_none_not_matches _ _ hj _ hmc4
    unfold extractCodeTags
    rw [if_pos hg, htr, jsTrim_idempotent]
  · unfold extractCodeTags
    rw [if_neg hg]

/-- The extraction step is idempotent. -/
theorem extractCodeTags_idempotent (s : List Char) :
    extractCodeTags (extractCodeTags s) = extractCodeTags s := by
  by_cases hg : (containsSub openTag s = true) ∧ (containsSub closeTag s = true)
  · have h1 : extractCodeTags s = jsTrim (tagReplace s) := by
      unfold extractCodeTags
      rw [if_pos hg]
    obtain ⟨i, hi⟩ := Option.isSome_iff_exists.mp hg.1
    cases hj : findSub closeTag (s.drop (i + openTag.length)) with
    | none =>
      rw [h1, tagReplace_no_close s i hi hj]
      exact extractCodeTags_trim_no_pair s i hi hj
    | some j =>
      rw [h1, tagReplace_close s i j hi hj]
      exact extractCodeTags_of_no_close _ (no_close_in_extract s i j hj)
  · have h1 : extractCodeTags s = s := by
      unfold extractCodeTags
      rw [if_neg hg]
    rw [h1, h1]

/-- Counterexample for C9: the leading-fence-stripping step is not
idempotent — on `"(fence)a\n(fence)b\nc"` a second application strips a
further fence line, so "each individual step is idempotent" fails. -/
theorem normalizer_counterexample :
    stripLeadFence (stripLeadFence (("```a\n```b\nc").data)) ≠
      stripLeadFence (("```a\n```b\nc").data) := by
  decide

/-- C9 (amended). Normalizer pipeline: the cleanup chain equals the ordered
composition — strip a leading fence line, strip a trailing fence marker,
trim, extract between the first opening and the first closing wrapper tag
after it (with a further trim) when a tag pair exists, then re-indent every
line after the first with the replaced line's indentation.  The trim step
and the extraction step are idempotent; the fence-stripping steps and the
re-indentation step are not, and extraction stops at the first closing tag
rather than the last. -/
theorem normalizer_pipeline (line raw s : List Char) :
    cleanSuggestion line raw =
      reindentStep (leadingWS line)
        (extractCodeTags (jsTrim (stripTrailFence (stripLeadFence raw)))) ∧
    jsTrim (jsTrim s) = jsTrim s ∧
    extractCodeTags (extractCodeTags s) = extractCodeTags s ∧
    extractCodeTags (("<code>a</code>b</code>").data) = ("a").data ∧
    stripLeadFence (stripLeadFence (("```p\n```q\nr").data)) ≠
      stripLeadFence (("```p\n```q\nr").data) ∧
    stripTrailFence (stripTrailFence (("x\n```\n```").data)) ≠
      stripTrailFence (("x\n```\n```").data) ∧
    reindentStep (("  ").data)
        (reindentStep (("  ").data) (("a\nb").data)) ≠
      reindentStep (("  ").data) (("a\nb").data) :=
  ⟨rfl, jsTrim_idempotent s, extractCodeTags_idempotent s, by decide,
   by decide, by decide, by decide⟩

end CodemirrorTurbo
